import Mathlib

/-!
Verification of the tuhi BLE/session/drawing core.

Shallow embedding of `tuhi.py` and `tuhi/ble.py`: the drawing-delta decoder
and JSON serializer (`TuhiDrawing`, `TuhiDevice._on_drawing_received`), the
pairing-mode detection and connected-entry decision (`TuhiDevice`), the
device deduplication and vendor filtering (`Tuhi`), and the BLE topology
resolution (`BlueZDevice.resolve`, `BlueZDeviceManager`).
-/

namespace Tuhi

/-- Constant `WACOM_COMPANY_ID` from tuhi.py line 31. -/
def WACOM_COMPANY_ID : Nat := 0x4755

/-- Association-list lookup modelling a Python dictionary read: the value
stored under the first occurrence of the key. -/
def lookupKey {κ α : Type} [DecidableEq κ] (k : κ) : List (κ × α) → Option α
  | [] => none
  | (k', v) :: rest => if k = k' then some v else lookupKey k rest

/-- Association-list update modelling a Python dictionary assignment:
replace the value under an existing key, otherwise append the binding. -/
def setKey {κ α : Type} [DecidableEq κ] (k : κ) (v : α) : List (κ × α) → List (κ × α)
  | [] => [(k, v)]
  | (k', v') :: rest => if k = k' then (k, v) :: rest else (k', v') :: setKey k v rest

/-! ## Drawing reconstruction (`TuhiDevice._on_drawing_received`, tuhi.py 124-151) -/

/-- Point encoding tag: `Stroke.RELATIVE` or not (the code only tests
equality with `Stroke.RELATIVE`, everything else is treated as absolute). -/
inductive StrokeType where
  | absolute
  | relative
deriving DecidableEq, Repr

/-- One raw point tuple `(type, x, y, p)` of a `Stroke` delivered by the
wacom protocol driver; each channel is independently optional. -/
structure RawPoint where
  type : StrokeType
  x : Option Int
  y : Option Int
  p : Option Int
deriving DecidableEq, Repr

/-- One coordinate channel of the per-point body of
`TuhiDevice._on_drawing_received` (tuhi.py lines 130-142): an absent raw
value passes through as absent; a present value is taken verbatim for
non-relative points and added to the running last-value for
`Stroke.RELATIVE` points, where adding to a missing last-value is the
Python `TypeError` raised by `x += lastx` with `lastx` being `None`,
modelled as `Except.error`. -/
def channelValue (ty : StrokeType) (v last : Option Int) : Except Unit (Option Int) :=
  match v with
  | none => Except.ok none
  | some n =>
    match ty with
    | StrokeType.absolute => Except.ok (some n)
    | StrokeType.relative =>
      match last with
      | none => Except.error ()
      | some l => Except.ok (some (n + l))

/-- A `TuhiDrawing.Point` (tuhi.py 44-54): attributes that were never
assigned read back as `None` through `getattr(self, key, None)`. -/
structure TuhiPoint where
  toffset : Option Int
  position : Option (Option Int × Option Int)
  pressure : Option Int
deriving DecidableEq, Repr

/-- The stroke loop of `TuhiDevice._on_drawing_received` (tuhi.py 129-148)
from a given running-last-value state: after the three guarded channel
updates, the line `lastx, lasty, lastp = x, y, p` (line 144) stores the
loop variables — which are the raw values when a channel was absent — and
the emitted point always sets `position = (lastx, lasty)` and
`pressure = lastp`, while `toffset` is never assigned. -/
def decodeStrokeFrom : List RawPoint → Option Int → Option Int → Option Int →
    Except Unit (List TuhiPoint)
  | [], _, _, _ => Except.ok []
  | pt :: rest, lx, ly, lp =>
    match channelValue pt.type pt.x lx with
    | Except.error e => Except.error e
    | Except.ok x' =>
      match channelValue pt.type pt.y ly with
      | Except.error e => Except.error e
      | Except.ok y' =>
        match channelValue pt.type pt.p lp with
        | Except.error e => Except.error e
        | Except.ok p' =>
          match decodeStrokeFrom rest x' y' p' with
          | Except.error e => Except.error e
          | Except.ok tail => Except.ok (⟨none, some (x', y'), p'⟩ :: tail)

/-- Decoding one `Stroke`: the running last-values start out unknown
(`lastx, lasty, lastp = None, None, None`, tuhi.py line 129). -/
def decodeStroke (pts : List RawPoint) : Except Unit (List TuhiPoint) :=
  decodeStrokeFrom pts none none none

/-! ## JSON serialization (`TuhiDrawing`, tuhi.py 34-72) -/

/-- JSON values as produced by `TuhiDrawing.json`; `jPosition` is the
two-element position tuple whose components may each be `None`. -/
inductive JVal where
  | jInt : Int → JVal
  | jStr : String → JVal
  | jPosition : Option Int → Option Int → JVal
  | jList : List JVal → JVal
  | jObj : List (String × JVal) → JVal

/-- Embeds `TuhiDrawing.Point.to_dict` (tuhi.py 48-54): include, in the
fixed key order toffset, position, pressure, every attribute whose value
is not `None`. -/
def TuhiPoint.to_dict (pt : TuhiPoint) : List (String × JVal) :=
  (match pt.toffset with
   | some t => [("toffset", JVal.jInt t)]
   | none => []) ++
  (match pt.position with
   | some xy => [("position", JVal.jPosition xy.1 xy.2)]
   | none => []) ++
  (match pt.pressure with
   | some pr => [("pressure", JVal.jInt pr)]
   | none => [])

/-- Embeds `TuhiDrawing.Stroke.to_dict` (tuhi.py 39-42). -/
def strokeToDict (points : List TuhiPoint) : List (String × JVal) :=
  [("points", JVal.jList (points.map (fun pt => JVal.jObj pt.to_dict)))]

/-- The fields of a `TuhiDrawing` (tuhi.py 56-60), with strokes already
reduced to their point lists. -/
structure TuhiDrawingData where
  name : String
  dimensions : Int × Int
  timestamp : Int
  strokes : List (List TuhiPoint)

/-- Embeds `TuhiDrawing.json` (tuhi.py 62-72): the serialized record's
key/value pairs in construction order. -/
def TuhiDrawingData.json_data (d : TuhiDrawingData) : List (String × JVal) :=
  [("version", JVal.jInt 1),
   ("devicename", JVal.jStr d.name),
   ("dimensions", JVal.jList [JVal.jInt d.dimensions.1, JVal.jInt d.dimensions.2]),
   ("timestamp", JVal.jInt d.timestamp),
   ("strokes", JVal.jList (d.strokes.map (fun s => JVal.jObj (strokeToDict s))))]

/-- First encoding tag among the points whose raw value on the given
channel is present. -/
def firstChannelType (f : RawPoint → Option Int) : List RawPoint → Option StrokeType
  | [] => none
  | pt :: rest => if (f pt).isSome then some pt.type else firstChannelType f rest

/-- If decoding a stroke tail from given running last-values succeeds,
then on every channel whose running last-value is still unknown the first
present raw value is not relative-encoded. -/
theorem decodeStrokeFrom_ok_first_channel :
    ∀ (pts : List RawPoint) (lx ly lp : Option Int) (out : List TuhiPoint),
      decodeStrokeFrom pts lx ly lp = Except.ok out →
      (lx = none → firstChannelType RawPoint.x pts ≠ some StrokeType.relative) ∧
      (ly = none → firstChannelType RawPoint.y pts ≠ some StrokeType.relative) ∧
      (lp = none → firstChannelType RawPoint.p pts ≠ some StrokeType.relative) := by
  intro pts
  induction pts with
  | nil => intro lx ly lp out _; simp [firstChannelType]
  | cons q rest ih =>
    intro lx ly lp out h
    cases hx : channelValue q.type q.x lx with
    | error e => simp [decodeStrokeFrom, hx] at h
    | ok x' =>
      cases hy : channelValue q.type q.y ly with
      | error e => simp [decodeStrokeFrom, hx, hy] at h
      | ok y' =>
        cases hp : channelValue q.type q.p lp with
        | error e => simp [decodeStrokeFrom, hx, hy, hp] at h
        | ok p' =>
          cases htail : decodeStrokeFrom rest x' y' p' with
          | error e => simp [decodeStrokeFrom, hx, hy, hp, htail] at h
          | ok tail =>
            have ih' := ih x' y' p' tail htail
            refine ⟨?_, ?_, ?_⟩
            · intro hlx
              simp only [firstChannelType]
              cases hqx : q.x with
              | none =>
                simp only [hqx, Option.isSome_none, Bool.false_eq_true, if_false]
                rw [hqx] at hx
                simp [channelValue] at hx
                exact ih'.1 hx.symm
              | some n =>
                simp only [hqx, Option.isSome_some, if_true]
                intro hrel
                have hrel' : q.type = StrokeType.relative := by
                  exact Option.some_injective _ hrel
                rw [hqx, hrel', hlx] at hx
                simp [channelValue] at hx
            · intro hly
              simp only [firstChannelType]
              cases hqy : q.y with
              | none =>
                simp only [hqy, Option.isSome_none, Bool.false_eq_true, if_false]
                rw [hqy] at hy
                simp [channelValue] at hy
                exact ih'.2.1 hy.symm
              | some n =>
                simp only [hqy, Option.isSome_some, if_true]
                intro hrel
                have hrel' : q.type = StrokeType.relative := by
                  exact Option.some_injective _ hrel
                rw [hqy, hrel', hly] at hy
                simp [channelValue] at hy
            · intro hlp
              simp only [firstChannelType]
              cases hqp : q.p with
              | none =>
                simp only [hqp, Option.isSome_none, Bool.false_eq_true, if_false]
                rw [hqp] at hp
                simp [channelValue] at hp
                exact ih'.2.2 hp.symm
              | some n =>
                simp only [hqp, Option.isSome_some, if_true]
                intro hrel
                have hrel' : q.type = StrokeType.relative := by
                  exact Option.some_injective _ hrel
                rw [hqp, hrel', hlp] at hp
                simp [channelValue] at hp

/-- Every point emitted by the stroke decoding loop has its position
attribute assigned (tuhi.py line 146) and its toffset attribute never
assigned. -/
theorem decodeStrokeFrom_position_set :
    ∀ (pts : List RawPoint) (lx ly lp : Option Int) (out : List TuhiPoint),
      decodeStrokeFrom pts lx ly lp = Except.ok out →
      ∀ pt ∈ out, pt.position.isSome ∧ pt.toffset = none := by
  intro pts
  induction pts with
  | nil =>
    intro lx ly lp out h
    simp [decodeStrokeFrom] at h
    subst h
    intro pt hpt
    simp at hpt
  | cons q rest ih =>
    intro lx ly lp out h
    cases hx : channelValue q.type q.x lx with
    | error e => simp [decodeStrokeFrom, hx] at h
    | ok x' =>
      cases hy : channelValue q.type q.y ly with
      | error e => simp [decodeStrokeFrom, hx, hy] at h
      | ok y' =>
        cases hp : channelValue q.type q.p lp with
        | error e => simp [decodeStrokeFrom, hx, hy, hp] at h
        | ok p' =>
          cases htail : decodeStrokeFrom rest x' y' p' with
          | error e => simp [decodeStrokeFrom, hx, hy, hp, htail] at h
          | ok tail =>
            simp only [decodeStrokeFrom, hx, hy, hp, htail, Except.ok.injEq] at h
            subst h
            intro pt hpt
            rcases List.mem_cons.mp hpt with h1 | h2
            · subst h1; simp
            · exact ih x' y' p' tail htail pt h2

/-- C1: Delta decode at the claim's example stroke. The line
`lastx, lasty, lastp = x, y, p` (tuhi.py 144) resets every running
last-value to the raw channel value at each point, so after the third raw
point `(Relative, None, 5, None)` the emitted point is `(None, 23, None)`
— position `(None, 23)` and absent pressure — not the `(13, 23, 5)` the
claim states. -/
theorem c1_delta_decode_code_eval :
    decodeStroke [⟨StrokeType.absolute, some 10, some 20, some 5⟩,
                  ⟨StrokeType.relative, some 3, some (-2), some 0⟩,
                  ⟨StrokeType.relative, none, some 5, none⟩] =
      Except.ok [⟨none, some (some 10, some 20), some 5⟩,
                 ⟨none, some (some 13, some 18), some 5⟩,
                 ⟨none, some (none, some 23), none⟩] ∧
    (⟨none, some (none, some 23), none⟩ : TuhiPoint) ≠
      ⟨none, some (some 13, some 23), some 5⟩ :=
  ⟨by rfl, by decide⟩

/-- C8: decoding a stroke is error-free only if, on each coordinate
channel, the first point whose raw value is present is not
relative-encoded; and the one-point stroke whose x channel starts with a
relative value makes the decoder abort with an error, because `x += lastx`
is evaluated with `lastx` still `None`. -/
theorem c8_first_present_must_be_absolute :
    (∀ (pts : List RawPoint) (out : List TuhiPoint), decodeStroke pts = Except.ok out →
      firstChannelType RawPoint.x pts ≠ some StrokeType.relative ∧
      firstChannelType RawPoint.y pts ≠ some StrokeType.relative ∧
      firstChannelType RawPoint.p pts ≠ some StrokeType.relative) ∧
    decodeStroke [⟨StrokeType.relative, some 1, none, none⟩] = Except.error () := by
  constructor
  · intro pts out h
    have h3 := decodeStrokeFrom_ok_first_channel pts none none none out h
    exact ⟨h3.1 rfl, h3.2.1 rfl, h3.2.2 rfl⟩
  · rfl

/-- Witness for C8 at a concrete successfully decoded stroke. -/
theorem c8_first_present_must_be_absolute_witness :
    firstChannelType RawPoint.x [⟨StrokeType.absolute, some 1, some 2, some 3⟩] ≠
      some StrokeType.relative :=
  (c8_first_present_must_be_absolute.1 [⟨StrokeType.absolute, some 1, some 2, some 3⟩]
    [⟨none, some (some 1, some 2), some 3⟩] rfl).1

/-- C7 counterexample: the point decoded from the raw tuple
`(Absolute, None, None, 5)` has both position channels absent, yet its
serialized record still carries a `position` field (holding the pair
`(None, None)`), because `_on_drawing_received` always assigns
`point.position` (tuhi.py 146) and `Point.to_dict` only omits attributes
that are `None` — a tuple of `None`s is not `None`. -/
theorem c7_position_field_counterexample :
    decodeStroke [⟨StrokeType.absolute, none, none, some 5⟩] =
      Except.ok [⟨none, some (none, none), some 5⟩] ∧
    "position" ∈ (TuhiPoint.to_dict ⟨none, some (none, none), some 5⟩).map Prod.fst := by
  exact ⟨by rfl, by simp [TuhiPoint.to_dict]⟩

/-- C7 (amended): every serialized Drawing record has exactly the fields
version, devicename, dimensions, timestamp, strokes, and a Point's
serialized record contains each of toffset, position, pressure exactly
when the attribute is set; however points produced by the
drawing-received path always set position (to a pair whose components may
individually be absent) and never set toffset, so a point whose position
channels are absent still carries a position field, holding a pair of
absent components. -/
theorem c7_field_omission_amended :
    (∀ d : TuhiDrawingData, d.json_data.map Prod.fst =
      ["version", "devicename", "dimensions", "timestamp", "strokes"]) ∧
    (∀ pt : TuhiPoint,
      (("toffset" ∈ pt.to_dict.map Prod.fst) ↔ pt.toffset.isSome) ∧
      (("position" ∈ pt.to_dict.map Prod.fst) ↔ pt.position.isSome) ∧
      (("pressure" ∈ pt.to_dict.map Prod.fst) ↔ pt.pressure.isSome)) ∧
    (∀ (pts : List RawPoint) (out : List TuhiPoint), decodeStroke pts = Except.ok out →
      ∀ pt ∈ out, pt.position.isSome ∧ pt.toffset = none) := by
  refine ⟨fun d => rfl, fun pt => ?_,
    fun pts out h => decodeStrokeFrom_position_set pts none none none out h⟩
  obtain ⟨t, pos, pr⟩ := pt
  cases t <;> cases pos <;> cases pr <;> simp [TuhiPoint.to_dict]

/-- Witness for C7 (amended) at a concrete decoded stroke. -/
theorem c7_field_omission_amended_witness :
    (⟨none, some (some 1, some 2), some 3⟩ : TuhiPoint).position.isSome ∧
    (⟨none, some (some 1, some 2), some 3⟩ : TuhiPoint).toffset = none :=
  c7_field_omission_amended.2.2 [⟨StrokeType.absolute, some 1, some 2, some 3⟩]
    [⟨none, some (some 1, some 2), some 3⟩] rfl _ (List.mem_singleton.mpr rfl)

/-! ## Pairing-mode detection (`TuhiDevice.pairingmode`, tuhi.py 95-102) -/

/-- Modelled from the spec: `BlueZDevice.get_manufacturer_data` is invoked
by `TuhiDevice.pairingmode` (tuhi.py line 97) but its definition is absent
from src/tuhi/ble.py. Per the spec's glossary, manufacturer data is
"vendor-specific bytes in a BLE advertisement, keyed by vendor identifier",
and pairing-mode detection treats absent data like any other-length
payload, so the accessor yields the payload bytes advertised under the
given company identifier, empty when no such data is present. -/
def get_manufacturer_data (md : List (Nat × List Nat)) (companyId : Nat) : List Nat :=
  (lookupKey companyId md).getD []

/-- Embeds `TuhiDevice.pairingmode` (tuhi.py 95-102): the device is in
pairing mode exactly when the manufacturer-data payload for the Wacom
company identifier has length 4. -/
def pairingmode (md : List (Nat × List Nat)) : Bool :=
  (get_manufacturer_data md WACOM_COMPANY_ID).length == 4

/-- C4: pairing mode is reported exactly when the manufacturer-data
payload for the Wacom company identifier is 4 bytes long, and absent
manufacturer data reports normal mode. -/
theorem c4_pairingmode_length :
    (∀ md, pairingmode md = true ↔
      (get_manufacturer_data md WACOM_COMPANY_ID).length = 4) ∧
    (∀ md, lookupKey WACOM_COMPANY_ID md = (none : Option (List Nat)) →
      pairingmode md = false) := by
  constructor
  · intro md
    simp [pairingmode]
  · intro md h
    simp [pairingmode, get_manufacturer_data, h]

/-- Witness for C4: a device advertising no manufacturer data at all is
not in pairing mode. -/
theorem c4_pairingmode_length_witness : pairingmode [] = false :=
  c4_pairingmode_length.2 [] rfl

/-! ## Connected-entry decision (`TuhiDevice._on_bluez_device_connected`,
tuhi.py 112-119) -/

/-- The action taken on entry to the connected state. -/
inductive ConnectedAction where
  | startRetrieval
  | startPairing
  | noAction
deriving DecidableEq, Repr

/-- Embeds `TuhiDevice._on_bluez_device_connected` (tuhi.py 112-119):
when the wacom protocol driver is not already working, either normal
retrieval starts (`self._wacom_device.start()`) or pairing starts and the
pairing flag is cleared; when the driver is working nothing happens.
Returns the action taken and the new value of the pairing flag. -/
def onBluezDeviceConnected (working pairing : Bool) : ConnectedAction × Bool :=
  if !working then
    if !pairing then (ConnectedAction.startRetrieval, pairing)
    else (ConnectedAction.startPairing, false)
  else (ConnectedAction.noAction, pairing)

/-- C6: on entry to the connected state with the driver idle, exactly one
action runs, selected by the pairing flag sampled at that moment — pairing
(and the flag is cleared) when the flag is set, retrieval otherwise — and
with the driver already working a second connect event is a no-op. -/
theorem c6_connected_entry_decision :
    (∀ pairing, onBluezDeviceConnected true pairing = (ConnectedAction.noAction, pairing)) ∧
    onBluezDeviceConnected false true = (ConnectedAction.startPairing, false) ∧
    onBluezDeviceConnected false false = (ConnectedAction.startRetrieval, false) := by
  decide

/-! ## Value-change subscription (`BlueZDevice.connect_gatt_value`,
ble.py 188-198) -/

/-- A `BlueZCharacteristic` (ble.py 26-69): its uuid, the per-property
callback registry, and whether `StartNotify` has been issued. Callbacks
are identified by number. -/
structure CharacteristicState where
  uuid : String
  propertyCallbacks : List (String × Nat)
  notifying : Bool
deriving DecidableEq, Repr

/-- Embeds `BlueZCharacteristic.connect_property` (ble.py 45-52):
register, or silently replace, the callback for a property name. -/
def connect_property (c : CharacteristicState) (propname : String) (cb : Nat) :
    CharacteristicState :=
  { c with propertyCallbacks := setKey propname cb c.propertyCallbacks }

/-- Embeds `BlueZCharacteristic.start_notify` (ble.py 54-55). -/
def start_notify (c : CharacteristicState) : CharacteristicState :=
  { c with notifying := true }

/-- Embeds `BlueZDevice.connect_gatt_value` (ble.py 188-198): look up the
characteristic by uuid in the device's resolved map; register the Value
callback and start notifications on it; a `KeyError` (unknown uuid) is
swallowed and nothing happens. -/
def connect_gatt_value (chars : List (String × CharacteristicState)) (uuid : String)
    (cb : Nat) : List (String × CharacteristicState) :=
  match lookupKey uuid chars with
  | none => chars
  | some c => setKey uuid (start_notify (connect_property c "Value" cb)) chars

/-- C9: requesting a value-change subscription for a uuid that is not in
the device's resolved characteristic map is a silent no-op: the
characteristic map — and with it every callback registry and notification
flag — is returned unchanged, and no error escapes. -/
theorem c9_unknown_uuid_noop :
    ∀ (chars : List (String × CharacteristicState)) (uuid : String) (cb : Nat),
      lookupKey uuid chars = none → connect_gatt_value chars uuid cb = chars := by
  intro chars uuid cb h
  simp [connect_gatt_value, h]

/-- Witness for C9 on a device with an empty characteristic map. -/
theorem c9_unknown_uuid_noop_witness :
    connect_gatt_value [] "6e400003-b5a3-f393-e0a9-e50e24dcca9e" 0 = [] :=
  c9_unknown_uuid_noop [] "6e400003-b5a3-f393-e0a9-e50e24dcca9e" 0 rfl

/-! ## Device deduplication (`Tuhi.get_tuhi_device`, tuhi.py 183-189) -/

/-- The orchestrator's device registry (`Tuhi.__init__`,
`Tuhi.get_tuhi_device`): the address-keyed map of sessions, the next
fresh session identifier, and the list of sessions for which the
external-facing counterpart was created (`self.server.create_device`),
i.e. the downstream device-added events, in order. -/
structure TuhiState where
  devices : List (String × Nat)
  nextId : Nat
  created : List Nat
deriving DecidableEq, Repr

/-- Embeds `Tuhi.get_tuhi_device` (tuhi.py 183-189): return the existing
session for the address, or construct a new one — which is the only point
creating the external counterpart — and store it under the address. -/
def get_tuhi_device (st : TuhiState) (address : String) : Nat × TuhiState :=
  match lookupKey address st.devices with
  | some d => (d, st)
  | none =>
    (st.nextId,
     { devices := st.devices ++ [(address, st.nextId)],
       nextId := st.nextId + 1,
       created := st.created ++ [st.nextId] })

/-- The registry at process start (tuhi.py line 175). -/
def initialTuhiState : TuhiState := ⟨[], 0, []⟩

/-- Folding a sequence of device addresses through `get_tuhi_device`,
starting from the given registry. -/
def runAddressesFrom (st : TuhiState) (addrs : List String) : TuhiState :=
  addrs.foldl (fun s a => (get_tuhi_device s a).2) st

/-- Folding a sequence of device addresses from process start. -/
def processAddresses (addrs : List String) : TuhiState :=
  runAddressesFrom initialTuhiState addrs

/-- A key bound in an association list keeps its binding under appending. -/
theorem lookupKey_append_some {κ α : Type} [DecidableEq κ] (k : κ) (v : α) :
    ∀ (l₁ l₂ : List (κ × α)), lookupKey k l₁ = some v →
      lookupKey k (l₁ ++ l₂) = some v := by
  intro l₁
  induction l₁ with
  | nil => intro l₂ h; simp [lookupKey] at h
  | cons q rest ih =>
    intro l₂ h
    obtain ⟨k', v'⟩ := q
    by_cases hk : k = k'
    · simp [lookupKey, hk] at h ⊢; exact h
    · simp [lookupKey, hk] at h ⊢; exact ih l₂ h

/-- Looking up a key absent from the front list falls through to the back
list. -/
theorem lookupKey_append_none {κ α : Type} [DecidableEq κ] (k : κ) :
    ∀ (l₁ l₂ : List (κ × α)), lookupKey k l₁ = none →
      lookupKey k (l₁ ++ l₂) = lookupKey k l₂ := by
  intro l₁
  induction l₁ with
  | nil => intro l₂ _; simp
  | cons q rest ih =>
    intro l₂ h
    obtain ⟨k', v'⟩ := q
    by_cases hk : k = k'
    · simp [lookupKey, hk] at h
    · simp [lookupKey, hk] at h ⊢; exact ih l₂ h

/-- A lookup misses exactly when the key is not among the stored keys. -/
theorem lookupKey_eq_none_iff {κ α : Type} [DecidableEq κ] (k : κ) :
    ∀ l : List (κ × α), lookupKey k l = none ↔ k ∉ l.map Prod.fst := by
  intro l
  induction l with
  | nil => simp [lookupKey]
  | cons q rest ih =>
    obtain ⟨k', v'⟩ := q
    by_cases hk : k = k'
    · simp [lookupKey, hk]
    · simp [lookupKey, hk, ih]

/-- A successful lookup names a binding of the list. -/
theorem lookupKey_some_mem {κ α : Type} [DecidableEq κ] (k : κ) (v : α) :
    ∀ l : List (κ × α), lookupKey k l = some v → (k, v) ∈ l := by
  intro l
  induction l with
  | nil => intro h; simp [lookupKey] at h
  | cons q rest ih =>
    intro h
    obtain ⟨k', v'⟩ := q
    by_cases hk : k = k'
    · simp [lookupKey, hk] at h
      subst hk; subst h; exact List.mem_cons_self _ _
    · simp [lookupKey, hk] at h
      exact List.mem_cons_of_mem _ (ih h)

/-- Appending a fresh element keeps a list duplicate-free. -/
theorem nodup_append_single {α : Type} (a : α) :
    ∀ l : List α, l.Nodup → a ∉ l → (l ++ [a]).Nodup := by
  intro l
  induction l with
  | nil => intro _ _; simp
  | cons b rest ih =>
    intro hnd hm
    simp only [List.nodup_cons] at hnd
    simp only [List.mem_cons, not_or] at hm
    simp only [List.cons_append, List.nodup_cons]
    refine ⟨?_, ih hnd.2 hm.2⟩
    intro hb
    rcases List.mem_append.mp hb with h1 | h2
    · exact hnd.1 h1
    · simp at h2
      exact hm.1 h2.symm

/-- Bindings present in the registry survive any further sequence of
device events: a session, once created, is never replaced. -/
theorem runAddressesFrom_lookup_stable (addrs : List String) :
    ∀ (st : TuhiState) (a : String) (d : Nat), lookupKey a st.devices = some d →
      lookupKey a (runAddressesFrom st addrs).devices = some d := by
  induction addrs with
  | nil => intro st a d h; exact h
  | cons b rest ih =>
    intro st a d h
    show lookupKey a (runAddressesFrom ((get_tuhi_device st b).2) rest).devices = some d
    cases hb : lookupKey b st.devices with
    | some e =>
      apply ih
      simpa [get_tuhi_device, hb] using h
    | none =>
      apply ih
      simp only [get_tuhi_device, hb]
      exact lookupKey_append_some a d st.devices [(b, st.nextId)] h

/-- The registry keeps one binding per address and one creation event per
binding, through any sequence of device events. -/
theorem runAddressesFrom_nodup_length (addrs : List String) :
    ∀ st : TuhiState, (st.devices.map Prod.fst).Nodup →
      st.created.length = st.devices.length →
      ((runAddressesFrom st addrs).devices.map Prod.fst).Nodup ∧
      (runAddressesFrom st addrs).created.length =
        (runAddressesFrom st addrs).devices.length := by
  induction addrs with
  | nil => intro st h1 h2; exact ⟨h1, h2⟩
  | cons b rest ih =>
    intro st h1 h2
    show ((runAddressesFrom ((get_tuhi_device st b).2) rest).devices.map Prod.fst).Nodup ∧
      (runAddressesFrom ((get_tuhi_device st b).2) rest).created.length =
        (runAddressesFrom ((get_tuhi_device st b).2) rest).devices.length
    cases hb : lookupKey b st.devices with
    | some e =>
      refine ih _ ?_ ?_
      · simpa [get_tuhi_device, hb] using h1
      · simpa [get_tuhi_device, hb] using h2
    | none =>
      refine ih _ ?_ ?_
      · simp only [get_tuhi_device, hb, List.map_append]
        exact nodup_append_single b _ h1 ((lookupKey_eq_none_iff b st.devices).mp hb)
      · simp [get_tuhi_device, hb, h2]

/-- An address is bound after a sequence of device events exactly when it
occurred in the sequence or was bound before. -/
theorem runAddressesFrom_lookup_isSome (addrs : List String) :
    ∀ (st : TuhiState) (a : String),
      (lookupKey a (runAddressesFrom st addrs).devices).isSome ↔
        (a ∈ addrs ∨ (lookupKey a st.devices).isSome) := by
  induction addrs with
  | nil => intro st a; simp [runAddressesFrom]
  | cons b rest ih =>
    intro st a
    have hstep : (lookupKey a ((get_tuhi_device st b).2).devices).isSome ↔
        (a = b ∨ (lookupKey a st.devices).isSome) := by
      cases hb : lookupKey b st.devices with
      | some e =>
        simp only [get_tuhi_device, hb]
        constructor
        · intro h; exact Or.inr h
        · rintro (h | h)
          · subst h; simp [hb]
          · exact h
      | none =>
        simp only [get_tuhi_device, hb]
        cases ha : lookupKey a st.devices with
        | some v =>
          rw [lookupKey_append_some a v st.devices [(b, st.nextId)] ha]
          simp
        | none =>
          rw [lookupKey_append_none a st.devices [(b, st.nextId)] ha]
          by_cases hab : a = b
          · simp [lookupKey, hab]
          · simp [lookupKey, hab]
    show (lookupKey a (runAddressesFrom ((get_tuhi_device st b).2) rest).devices).isSome ↔ _
    rw [ih, hstep]
    simp [List.mem_cons]
    tauto

/-- C5: `get_tuhi_device` returns the existing session unchanged when the
address is known; over any event sequence the registry holds exactly one
session per distinct address, emits exactly one downstream device-added
event per created session, and an address seen once keeps its session
through any further events. -/
theorem c5_dedup_by_address :
    (∀ (st : TuhiState) (a : String) (d : Nat),
      lookupKey a st.devices = some d → get_tuhi_device st a = (d, st)) ∧
    (∀ addrs : List String,
      ((processAddresses addrs).devices.map Prod.fst).Nodup ∧
      (processAddresses addrs).created.length = (processAddresses addrs).devices.length) ∧
    (∀ (addrs : List String) (a : String),
      (lookupKey a (processAddresses addrs).devices).isSome ↔ a ∈ addrs) ∧
    (∀ (addrs more : List String) (a : String), a ∈ addrs →
      lookupKey a (processAddresses (addrs ++ more)).devices =
        lookupKey a (processAddresses addrs).devices) := by
  refine ⟨?_, ?_, ?_, ?_⟩
  · intro st a d h
    simp [get_tuhi_device, h]
  · intro addrs
    exact runAddressesFrom_nodup_length addrs initialTuhiState (by simp [initialTuhiState])
      (by simp [initialTuhiState])
  · intro addrs a
    simp only [processAddresses]
    rw [runAddressesFrom_lookup_isSome]
    simp [initialTuhiState, lookupKey]
  · intro addrs more a ha
    have h1 : (lookupKey a (processAddresses addrs).devices).isSome := by
      simp only [processAddresses]
      rw [runAddressesFrom_lookup_isSome]
      exact Or.inl ha
    obtain ⟨d, hd⟩ := Option.isSome_iff_exists.mp h1
    have h2 : processAddresses (addrs ++ more) =
        runAddressesFrom (processAddresses addrs) more := by
      simp [processAddresses, runAddressesFrom, List.foldl_append]
    rw [h2, runAddressesFrom_lookup_stable more (processAddresses addrs) a d hd, hd]

/-- Witness for C5: a second event for an already-registered address
returns the existing session and leaves the registry untouched. -/
theorem c5_dedup_by_address_witness :
    get_tuhi_device ⟨[("AA:BB:CC:DD:EE:FF", 0)], 1, [0]⟩ "AA:BB:CC:DD:EE:FF" =
      (0, ⟨[("AA:BB:CC:DD:EE:FF", 0)], 1, [0]⟩) :=
  c5_dedup_by_address.1 ⟨[("AA:BB:CC:DD:EE:FF", 0)], 1, [0]⟩ "AA:BB:CC:DD:EE:FF" 0
    (by simp [lookupKey])

/-! ## Vendor filtering (`BlueZDevice.__init__` ble.py 100-103,
`Tuhi._on_bluez_device_updated` tuhi.py 191-199) -/

/-- Embeds the vendor-identifier extraction of `BlueZDevice.__init__`
(ble.py 100-103): `vendor_id` defaults to 0 and becomes the first key of
the ManufacturerData dictionary when that property is present;
`md.keys()[0]` on an empty dictionary is an IndexError, modelled as
`none`. -/
def mkVendorId (md : Option (List (Nat × List Nat))) : Option Nat :=
  match md with
  | none => some 0
  | some [] => none
  | some ((k, _) :: _) => some k

/-- What `Tuhi._on_bluez_device_updated` does with a device event. -/
inductive UpdateAction where
  | ignored
  | noRetrieval (dev : Nat)
  | retrieveData (dev : Nat)
deriving DecidableEq, Repr

/-- Embeds `Tuhi._on_bluez_device_updated` (tuhi.py 191-199): a device
whose vendor identifier differs from the Wacom company id is ignored
before any session is looked up or created; otherwise the session is
fetched or created and, unless the device advertises pairing mode, data
retrieval is initiated on it. -/
def on_bluez_device_updated (st : TuhiState) (address : String) (vendorId : Nat)
    (md : List (Nat × List Nat)) : TuhiState × UpdateAction :=
  if vendorId ≠ WACOM_COMPANY_ID then (st, UpdateAction.ignored)
  else
    let r := get_tuhi_device st address
    if pairingmode md then (r.2, UpdateAction.noRetrieval r.1)
    else (r.2, UpdateAction.retrieveData r.1)

/-- C10: a device advertising no manufacturer data gets vendor identifier
0, and every device-updated event whose vendor identifier is not the
Wacom company id 0x4755 is ignored — the registry is unchanged, so no
session is created, and no retrieval is initiated. -/
theorem c10_vendor_filtering :
    mkVendorId none = some 0 ∧
    (∀ (st : TuhiState) (address : String) (vendorId : Nat) (md : List (Nat × List Nat)),
      vendorId ≠ WACOM_COMPANY_ID →
      on_bluez_device_updated st address vendorId md = (st, UpdateAction.ignored)) := by
  constructor
  · rfl
  · intro st address vendorId md h
    simp [on_bluez_device_updated, h]

/-- Witness for C10: a vendor-0 device (the default for absent
manufacturer data) is ignored. -/
theorem c10_vendor_filtering_witness :
    on_bluez_device_updated ⟨[], 0, []⟩ "AA:BB:CC:DD:EE:FF" 0 [] =
      (⟨[], 0, []⟩, UpdateAction.ignored) :=
  c10_vendor_filtering.2 ⟨[], 0, []⟩ "AA:BB:CC:DD:EE:FF" 0 [] (by decide)

/-! ## Topology resolution (`BlueZDevice.resolve`, ble.py 116-157) -/

/-- A transport object as seen by the manager: the interface it exposes
and its cached identifying properties — a service carries the object path
of its owning device (`Device`), a characteristic the object path of its
owning service (`Service`) and its `UUID`. -/
inductive BleObject where
  | adapter (objpath : String)
  | device (objpath : String)
  | service (objpath : String) (devicePath : String)
  | characteristic (objpath : String) (servicePath : String) (uuid : String)
deriving DecidableEq, Repr

/-- One iteration of the loop of `BlueZDevice._resolve_gatt_characteristics`
(ble.py 142-157): a characteristic whose `Service` property names `spath`
is appended to the uuid map unless its uuid is already present; everything
else is skipped. -/
def charStep (spath : String) (acc : List (String × String)) (o : BleObject) :
    List (String × String) :=
  match o with
  | BleObject.characteristic cpath sp u =>
    if sp = spath then
      match lookupKey u acc with
      | some _ => acc
      | none => acc ++ [(u, cpath)]
    else acc
  | _ => acc

/-- Embeds `BlueZDevice._resolve_gatt_characteristics` (ble.py 141-157):
scan every object for characteristics of the service at `spath`. -/
def resolveChars (spath : String) (chars : List (String × String))
    (objs : List BleObject) : List (String × String) :=
  objs.foldl (charStep spath) chars

/-- One iteration of the loop of `BlueZDevice._resolve_gatt_services`
(ble.py 126-139): a service whose `Device` property names `dpath` has its
characteristics resolved against the full object set; everything else is
skipped. -/
def serviceStep (dpath : String) (objs : List BleObject)
    (acc : List (String × String)) (o : BleObject) : List (String × String) :=
  match o with
  | BleObject.service spath dp =>
    if dp = dpath then resolveChars spath acc objs else acc
  | _ => acc

/-- Embeds `BlueZDevice.resolve` / `_resolve_gatt_services`
(ble.py 116-139) restricted to its effect on the uuid-to-characteristic
map (`self.characteristics`): for each service owned by the device at
`dpath`, fold its characteristics into the map. -/
def resolveDevice (dpath : String) (chars : List (String × String))
    (objs : List BleObject) : List (String × String) :=
  objs.foldl (serviceStep dpath objs) chars

/-- The second list extends the first: entries are only ever appended. -/
def ExtendsTo {α : Type} (l₁ l₂ : List α) : Prop := ∃ t, l₂ = l₁ ++ t

theorem extendsTo_rfl {α : Type} (l : List α) : ExtendsTo l l := ⟨[], by simp⟩

theorem extendsTo_trans {α : Type} {l₁ l₂ l₃ : List α}
    (h₁ : ExtendsTo l₁ l₂) (h₂ : ExtendsTo l₂ l₃) : ExtendsTo l₁ l₃ := by
  obtain ⟨t₁, rfl⟩ := h₁
  obtain ⟨t₂, rfl⟩ := h₂
  exact ⟨t₁ ++ t₂, by simp⟩

/-- A binding survives any extension of the association list. -/
theorem lookupKey_extends {κ α : Type} [DecidableEq κ] {l₁ l₂ : List (κ × α)}
    (h : ExtendsTo l₁ l₂) {k : κ} {v : α} (hv : lookupKey k l₁ = some v) :
    lookupKey k l₂ = some v := by
  obtain ⟨t, rfl⟩ := h
  exact lookupKey_append_some k v l₁ t hv

/-- A fold whose every step only appends, only appends. -/
theorem foldl_extendsTo {α β : Type} (step : List α → β → List α)
    (h : ∀ acc b, ExtendsTo acc (step acc b)) :
    ∀ (l : List β) (acc : List α), ExtendsTo acc (l.foldl step acc) := by
  intro l
  induction l with
  | nil => intro acc; exact extendsTo_rfl acc
  | cons b rest ih => intro acc; exact extendsTo_trans (h acc b) (ih (step acc b))

theorem charStep_extends (spath : String) (acc : List (String × String))
    (o : BleObject) : ExtendsTo acc (charStep spath acc o) := by
  cases o with
  | characteristic cpath sp u =>
    by_cases hsp : sp = spath
    · cases hu : lookupKey u acc with
      | some v => simp [charStep, hsp, hu]; exact extendsTo_rfl acc
      | none => simp [charStep, hsp, hu]; exact ⟨[(u, cpath)], rfl⟩
    · simp [charStep, hsp]; exact extendsTo_rfl acc
  | adapter p => exact extendsTo_rfl acc
  | device p => exact extendsTo_rfl acc
  | service p d => exact extendsTo_rfl acc

theorem resolveChars_extends (spath : String) (chars : List (String × String))
    (objs : List BleObject) : ExtendsTo chars (resolveChars spath chars objs) :=
  foldl_extendsTo (charStep spath) (charStep_extends spath) objs chars

theorem serviceStep_extends (dpath : String) (objs : List BleObject)
    (acc : List (String × String)) (o : BleObject) :
    ExtendsTo acc (serviceStep dpath objs acc o) := by
  cases o with
  | service spath dp =>
    by_cases hdp : dp = dpath
    · simp [serviceStep, hdp]; exact resolveChars_extends spath acc objs
    · simp [serviceStep, hdp]; exact extendsTo_rfl acc
  | adapter p => exact extendsTo_rfl acc
  | device p => exact extendsTo_rfl acc
  | characteristic p s u => exact extendsTo_rfl acc

theorem resolveDevice_extends (dpath : String) (chars : List (String × String))
    (objs : List BleObject) : ExtendsTo chars (resolveDevice dpath chars objs) :=
  foldl_extendsTo (serviceStep dpath objs) (serviceStep_extends dpath objs) objs chars

/-- Resolving a service's characteristics finds every characteristic of
that service present in the scanned list. -/
theorem resolveChars_complete (spath : String) :
    ∀ (l : List BleObject) (acc : List (String × String)) (cpath u : String),
      BleObject.characteristic cpath spath u ∈ l →
      (lookupKey u (l.foldl (charStep spath) acc)).isSome := by
  intro l
  induction l with
  | nil => intro acc cpath u h; simp at h
  | cons o rest ih =>
    intro acc cpath u h
    rcases List.mem_cons.mp h with h1 | h2
    · subst h1
      show (lookupKey u (rest.foldl (charStep spath) (charStep spath acc _))).isSome
      have hsome : ∃ v, lookupKey u
          (charStep spath acc (BleObject.characteristic cpath spath u)) = some v := by
        cases hu : lookupKey u acc with
        | some v =>
          refine ⟨v, ?_⟩
          simp [charStep, hu]
        | none =>
          refine ⟨cpath, ?_⟩
          have hstep : charStep spath acc (BleObject.characteristic cpath spath u) =
              acc ++ [(u, cpath)] := by
            simp [charStep, hu]
          rw [hstep, lookupKey_append_none u acc [(u, cpath)] hu]
          simp [lookupKey]
      obtain ⟨v, hv⟩ := hsome
      rw [lookupKey_extends
        (foldl_extendsTo (charStep spath) (charStep_extends spath) rest _) hv]
      rfl
    · exact ih (charStep spath acc o) cpath u h2

/-- Auxiliary form of device-resolution completeness, generalized over the
list of scanned objects. -/
theorem resolveDevice_complete_aux (dpath : String) (objs : List BleObject)
    (spath cpath u : String)
    (hc : BleObject.characteristic cpath spath u ∈ objs) :
    ∀ (l : List BleObject) (acc : List (String × String)),
      BleObject.service spath dpath ∈ l →
      (lookupKey u (l.foldl (serviceStep dpath objs) acc)).isSome := by
  intro l
  induction l with
  | nil => intro acc h; simp at h
  | cons o rest ih =>
    intro acc h
    rcases List.mem_cons.mp h with h1 | h2
    · subst h1
      show (lookupKey u (rest.foldl (serviceStep dpath objs)
        (serviceStep dpath objs acc (BleObject.service spath dpath)))).isSome
      have hstep : serviceStep dpath objs acc (BleObject.service spath dpath) =
          resolveChars spath acc objs := by
        simp [serviceStep]
      rw [hstep]
      simp only [resolveChars]
      obtain ⟨v, hv⟩ := Option.isSome_iff_exists.mp
        (resolveChars_complete spath objs acc cpath u hc)
      rw [lookupKey_extends
        (foldl_extendsTo (serviceStep dpath objs) (serviceStep_extends dpath objs) rest _) hv]
      rfl
    · exact ih (serviceStep dpath objs acc o) h2

/-- Resolving a device finds every characteristic reachable through one of
its services in the object set. -/
theorem resolveDevice_complete (dpath : String) (objs : List BleObject)
    (spath cpath u : String)
    (hs : BleObject.service spath dpath ∈ objs)
    (hc : BleObject.characteristic cpath spath u ∈ objs) :
    ∀ chars : List (String × String),
      (lookupKey u (resolveDevice dpath chars objs)).isSome := by
  intro chars
  exact resolveDevice_complete_aux dpath objs spath cpath u hc objs chars hs

/-- A characteristic scan over a map that already contains every uuid of
the service's characteristics changes nothing. -/
theorem resolveChars_fix (spath : String) :
    ∀ (l : List BleObject) (acc : List (String × String)),
      (∀ cpath u, BleObject.characteristic cpath spath u ∈ l →
        (lookupKey u acc).isSome) →
      l.foldl (charStep spath) acc = acc := by
  intro l
  induction l with
  | nil => intro acc _; rfl
  | cons o rest ih =>
    intro acc hsat
    have hstep : charStep spath acc o = acc := by
      cases o with
      | characteristic cpath sp u =>
        by_cases hsp : sp = spath
        · subst hsp
          obtain ⟨v, hv⟩ := Option.isSome_iff_exists.mp
            (hsat cpath u (List.mem_cons_self _ _))
          simp [charStep, hv]
        · simp [charStep, hsp]
      | adapter p => rfl
      | device p => rfl
      | service p d => rfl
    show rest.foldl (charStep spath) (charStep spath acc o) = acc
    rw [hstep]
    exact ih acc (fun cpath u h => hsat cpath u (List.mem_cons_of_mem o h))

/-- A device resolve over a map already containing every reachable uuid
changes nothing. -/
theorem resolveDevice_fix (dpath : String) (objs : List BleObject) :
    ∀ (l : List BleObject) (acc : List (String × String)),
      (∀ spath, BleObject.service spath dpath ∈ l →
        ∀ cpath u, BleObject.characteristic cpath spath u ∈ objs →
          (lookupKey u acc).isSome) →
      l.foldl (serviceStep dpath objs) acc = acc := by
  intro l
  induction l with
  | nil => intro acc _; rfl
  | cons o rest ih =>
    intro acc hsat
    have hstep : serviceStep dpath objs acc o = acc := by
      cases o with
      | service spath dp =>
        by_cases hdp : dp = dpath
        · subst hdp
          simp only [serviceStep, if_pos rfl]
          exact resolveChars_fix spath objs acc
            (hsat spath (List.mem_cons_self _ _))
        · simp [serviceStep, hdp]
      | adapter p => rfl
      | device p => rfl
      | characteristic p s u => rfl
    show rest.foldl (serviceStep dpath objs) (serviceStep dpath objs acc o) = acc
    rw [hstep]
    exact ih acc (fun spath h => hsat spath (List.mem_cons_of_mem o h))

/-- A fold each of whose steps preserves a property preserves it. -/
theorem foldl_preserves {α β : Type} (P : α → Prop) (step : α → β → α)
    (h : ∀ a b, P a → P (step a b)) :
    ∀ (l : List β) (a : α), P a → P (l.foldl step a) := by
  intro l
  induction l with
  | nil => intro a ha; exact ha
  | cons b rest ih => intro a ha; exact ih (step a b) (h a b ha)

theorem charStep_nodup (spath : String) (acc : List (String × String))
    (o : BleObject) (h : (acc.map Prod.fst).Nodup) :
    (((charStep spath acc o).map Prod.fst)).Nodup := by
  cases o with
  | characteristic cpath sp u =>
    by_cases hsp : sp = spath
    · cases hu : lookupKey u acc with
      | some v => simpa [charStep, hsp, hu] using h
      | none =>
        have hstep : charStep spath acc (BleObject.characteristic cpath sp u) =
            acc ++ [(u, cpath)] := by
          simp [charStep, hsp, hu]
        rw [hstep, List.map_append]
        exact nodup_append_single u _ h ((lookupKey_eq_none_iff u acc).mp hu)
    · simpa [charStep, hsp] using h
  | adapter p => exact h
  | device p => exact h
  | service p d => exact h

theorem resolveDevice_nodup (dpath : String) (chars : List (String × String))
    (objs : List BleObject) (h : (chars.map Prod.fst).Nodup) :
    ((resolveDevice dpath chars objs).map Prod.fst).Nodup := by
  refine foldl_preserves (fun acc => (acc.map Prod.fst).Nodup)
    (serviceStep dpath objs) ?_ objs chars h
  intro acc o hacc
  cases o with
  | service spath dp =>
    by_cases hdp : dp = dpath
    · simp only [serviceStep, hdp, if_pos rfl]
      exact foldl_preserves (fun acc => (acc.map Prod.fst).Nodup)
        (charStep spath) (charStep_nodup spath) objs acc hacc
    · simpa [serviceStep, hdp] using hacc
  | adapter p => exact hacc
  | device p => exact hacc
  | characteristic p s u => exact hacc

/-- C2: topology resolution is idempotent — re-running it with an
unchanged object set returns the identical uuid map — and re-invocable:
it only appends entries, never drops one, never replaces the binding of a
uuid already present, and introduces no duplicate uuid keys. -/
theorem c2_idempotent_resolution :
    (∀ (dpath : String) (chars : List (String × String)) (objs : List BleObject),
      resolveDevice dpath (resolveDevice dpath chars objs) objs =
        resolveDevice dpath chars objs) ∧
    (∀ (dpath : String) (chars : List (String × String)) (objs : List BleObject),
      ExtendsTo chars (resolveDevice dpath chars objs)) ∧
    (∀ (dpath : String) (chars : List (String × String)) (objs : List BleObject)
      (u c : String), lookupKey u chars = some c →
      lookupKey u (resolveDevice dpath chars objs) = some c) ∧
    (∀ (dpath : String) (chars : List (String × String)) (objs : List BleObject),
      (chars.map Prod.fst).Nodup →
      ((resolveDevice dpath chars objs).map Prod.fst).Nodup) := by
  refine ⟨?_, resolveDevice_extends, ?_, resolveDevice_nodup⟩
  · intro dpath chars objs
    exact resolveDevice_fix dpath objs objs (resolveDevice dpath chars objs)
      (fun spath hs cpath u hc =>
        resolveDevice_complete dpath objs spath cpath u hs hc chars)
  · intro dpath chars objs u c h
    exact lookupKey_extends (resolveDevice_extends dpath chars objs) h

/-- Witness for C2: a uuid already in the map is not replaced by a
re-resolution. -/
theorem c2_idempotent_resolution_witness :
    lookupKey "u-1" (resolveDevice "/org/bluez/hci0/dev" [("u-1", "/chrc1")] []) =
      some "/chrc1" :=
  c2_idempotent_resolution.2.2.1 "/org/bluez/hci0/dev" [("u-1", "/chrc1")] []
    "u-1" "/chrc1" (by simp [lookupKey])

/-! ## The object-added path (`BlueZDeviceManager`, ble.py 266-305) -/

/-- The state a `BlueZDevice` contributes to the manager: its object path
and its resolved uuid-to-characteristic map. -/
structure DeviceState where
  objpath : String
  characteristics : List (String × String)
deriving DecidableEq, Repr

/-- The manager's state: the object manager's current object set, in
delivery order, and the known devices (`self.devices`). -/
structure ManagerState where
  objects : List BleObject
  devices : List DeviceState
deriving DecidableEq, Repr

/-- Embeds `BlueZDeviceManager._on_om_object_added` with `_process_object`
and `_process_device` (ble.py 266-305): the object joins the object
manager's set; an added device is constructed and resolves itself against
the current set (`BlueZDevice.__init__`, ble.py 110-111); an added
characteristic makes every known device re-resolve against the current
set; an added adapter or service triggers nothing (`_process_object`
returns `True` only for characteristics). -/
def processObjectAdded (st : ManagerState) (o : BleObject) : ManagerState :=
  match o with
  | BleObject.adapter _ => { objects := st.objects ++ [o], devices := st.devices }
  | BleObject.device dpath =>
    { objects := st.objects ++ [o],
      devices := st.devices ++
        [{ objpath := dpath,
           characteristics := resolveDevice dpath [] (st.objects ++ [o]) }] }
  | BleObject.service _ _ => { objects := st.objects ++ [o], devices := st.devices }
  | BleObject.characteristic _ _ _ =>
    { objects := st.objects ++ [o],
      devices := st.devices.map (fun d =>
        { objpath := d.objpath,
          characteristics :=
            resolveDevice d.objpath d.characteristics (st.objects ++ [o]) }) }

/-- Delivering a whole object set one at a time through the object-added
path, starting from an empty manager. -/
def runManager (objs : List BleObject) : ManagerState :=
  objs.foldl processObjectAdded { objects := [], devices := [] }

/-- The manager's device with the given object path, if any. -/
def findDevice (p : String) (st : ManagerState) : Option DeviceState :=
  st.devices.find? (fun d => d.objpath == p)

/-- The final mapping at one device and uuid: `none` when no such device
is known, otherwise the device's binding for the uuid. -/
def charLookup (p u : String) (st : ManagerState) : Option (Option String) :=
  (findDevice p st).map (fun d => lookupKey u d.characteristics)

/-- The uuid `u` resolves to the characteristic at `cpath` for the device
at `dpath` within an object set: some service of the device owns a
characteristic at `cpath` carrying uuid `u`. Pure membership — invariant
under permutation of the set. -/
def resolvesTo (dpath u cpath : String) (objs : List BleObject) : Prop :=
  ∃ spath, BleObject.service spath dpath ∈ objs ∧
    BleObject.characteristic cpath spath u ∈ objs

def uuidOf : BleObject → Option String
  | BleObject.characteristic _ _ u => some u
  | _ => none

def devicePathOf : BleObject → Option String
  | BleObject.device p => some p
  | _ => none

/-- The characteristic uuids of the set are pairwise distinct. -/
def UuidsNodup (objs : List BleObject) : Prop := (objs.filterMap uuidOf).Nodup

/-- The last-delivered object is a characteristic. -/
def EndsWithCharacteristic (objs : List BleObject) : Prop :=
  ∃ (l : List BleObject) (cpath spath u : String),
    objs = l ++ [BleObject.characteristic cpath spath u]

/-- C3 counterexample: the same three objects delivered in two orders — a
device, its service and one characteristic — give different final
mappings: with the service last, nothing triggers a re-resolution after
it arrives, so the characteristic stays unresolved; with the
characteristic last it is resolved. -/
theorem c3_order_independence_counterexample :
    ([BleObject.device "d", BleObject.characteristic "c" "s" "u",
        BleObject.service "s" "d"].Perm
      [BleObject.device "d", BleObject.service "s" "d",
        BleObject.characteristic "c" "s" "u"]) ∧
    charLookup "d" "u" (runManager [BleObject.device "d",
      BleObject.characteristic "c" "s" "u", BleObject.service "s" "d"]) = some none ∧
    charLookup "d" "u" (runManager [BleObject.device "d", BleObject.service "s" "d",
      BleObject.characteristic "c" "s" "u"]) = some (some "c") := by
  refine ⟨List.Perm.cons _ (List.Perm.swap (BleObject.service "s" "d")
    (BleObject.characteristic "c" "s" "u") []), ?_, ?_⟩
  · rfl
  · rfl

/-- Every entry a characteristic scan adds is justified: its uuid resolves
to its characteristic path through the scanned service. -/
theorem resolveChars_entries (dpath spath : String) (objs : List BleObject)
    (hs : BleObject.service spath dpath ∈ objs) :
    ∀ (l : List BleObject), (∀ o ∈ l, o ∈ objs) →
      ∀ acc : List (String × String),
        (∀ e ∈ acc, resolvesTo dpath e.1 e.2 objs) →
        ∀ e ∈ l.foldl (charStep spath) acc, resolvesTo dpath e.1 e.2 objs := by
  intro l
  induction l with
  | nil => intro _ acc hacc e he; exact hacc e he
  | cons o rest ih =>
    intro hsub acc hacc
    refine ih (fun x hx => hsub x (List.mem_cons_of_mem o hx)) (charStep spath acc o) ?_
    intro e he
    cases o with
    | characteristic cpath sp u =>
      by_cases hsp : sp = spath
      · subst hsp
        cases hu : lookupKey u acc with
        | some v =>
          have : charStep sp acc (BleObject.characteristic cpath sp u) = acc := by
            simp [charStep, hu]
          rw [this] at he
          exact hacc e he
        | none =>
          have : charStep sp acc (BleObject.characteristic cpath sp u) =
              acc ++ [(u, cpath)] := by
            simp [charStep, hu]
          rw [this] at he
          rcases List.mem_append.mp he with h1 | h2
          · exact hacc e h1
          · have he2 : e = (u, cpath) := by simpa using h2
            subst he2
            exact ⟨sp, hs, hsub _ (List.mem_cons_self _ _)⟩
      · have : charStep spath acc (BleObject.characteristic cpath sp u) = acc := by
          simp [charStep, hsp]
        rw [this] at he
        exact hacc e he
    | adapter q => exact hacc e he
    | device q => exact hacc e he
    | service q d => exact hacc e he

/-- Every entry a device resolution adds is justified within the scanned
object set. -/
theorem resolveDevice_entries (dpath : String) (objs : List BleObject) :
    ∀ (l : List BleObject), (∀ o ∈ l, o ∈ objs) →
      ∀ acc : List (String × String),
        (∀ e ∈ acc, resolvesTo dpath e.1 e.2 objs) →
        ∀ e ∈ l.foldl (serviceStep dpath objs) acc, resolvesTo dpath e.1 e.2 objs := by
  intro l
  induction l with
  | nil => intro _ acc hacc e he; exact hacc e he
  | cons o rest ih =>
    intro hsub acc hacc
    refine ih (fun x hx => hsub x (List.mem_cons_of_mem o hx))
      (serviceStep dpath objs acc o) ?_
    intro e he
    cases o with
    | service spath dp =>
      by_cases hdp : dp = dpath
      · subst hdp
        have : serviceStep dp objs acc (BleObject.service spath dp) =
            resolveChars spath acc objs := by
          simp [serviceStep]
        rw [this] at he
        exact resolveChars_entries dp spath objs
          (hsub _ (List.mem_cons_self _ _)) objs (fun x hx => hx) acc hacc e he
      · have : serviceStep dpath objs acc (BleObject.service spath dp) = acc := by
          simp [serviceStep, hdp]
        rw [this] at he
        exact hacc e he
    | adapter q => exact hacc e he
    | device q => exact hacc e he
    | characteristic q s v => exact hacc e he

/-- Justification of the full resolution of one device. -/
theorem resolveDevice_justified (dpath : String) (objs : List BleObject)
    (chars : List (String × String))
    (h : ∀ e ∈ chars, resolvesTo dpath e.1 e.2 objs) :
    ∀ e ∈ resolveDevice dpath chars objs, resolvesTo dpath e.1 e.2 objs :=
  resolveDevice_entries dpath objs objs (fun _ ho => ho) chars h

/-- Two members of a list mapped by `f` to the same present value are the
same member, when the filterMap of the list is duplicate-free. -/
theorem filterMap_nodup_unique {α β : Type} (f : α → Option β) :
    ∀ l : List α, (l.filterMap f).Nodup →
      ∀ a b, a ∈ l → b ∈ l → ∀ u : β, f a = some u → f b = some u → a = b := by
  intro l
  induction l with
  | nil => intro _ a b ha; simp at ha
  | cons x t ih =>
    intro hnd a b ha hb u hfa hfb
    rcases List.mem_cons.mp ha with ha1 | ha2 <;>
      rcases List.mem_cons.mp hb with hb1 | hb2
    · rw [ha1, hb1]
    · exfalso
      subst ha1
      rw [List.filterMap_cons, hfa, List.nodup_cons] at hnd
      exact hnd.1 (List.mem_filterMap.mpr ⟨b, hb2, hfb⟩)
    · exfalso
      subst hb1
      rw [List.filterMap_cons, hfb, List.nodup_cons] at hnd
      exact hnd.1 (List.mem_filterMap.mpr ⟨a, ha2, hfa⟩)
    · have hnd' : (t.filterMap f).Nodup := by
        rw [List.filterMap_cons] at hnd
        cases hfx : f x with
        | none => rwa [hfx] at hnd
        | some v => rw [hfx, List.nodup_cons] at hnd; exact hnd.2
      exact ih hnd' a b ha2 hb2 u hfa hfb

/-- With pairwise-distinct uuids, a uuid determines the characteristic
object carrying it. -/
theorem uuid_unique (objs : List BleObject) (hU : UuidsNodup objs)
    (c s c' s' u : String)
    (h1 : BleObject.characteristic c s u ∈ objs)
    (h2 : BleObject.characteristic c' s' u ∈ objs) : c = c' ∧ s = s' := by
  have h := filterMap_nodup_unique uuidOf objs hU _ _ h1 h2 u rfl rfl
  injection h with hc hs hu
  exact ⟨hc, hs⟩

/-- With pairwise-distinct uuids, a uuid resolves to at most one
characteristic path for a given device. -/
theorem resolvesTo_unique (objs : List BleObject) (hU : UuidsNodup objs)
    (p u c c' : String) (h1 : resolvesTo p u c objs) (h2 : resolvesTo p u c' objs) :
    c = c' := by
  obtain ⟨s, _, hc⟩ := h1
  obtain ⟨s', _, hc'⟩ := h2
  exact (uuid_unique objs hU c s c' s' u hc hc').1

/-- Characterization of a full resolution pass: under distinct uuids and a
justified starting map, the resulting map binds a uuid to a path exactly
when the uuid resolves to that path in the object set. -/
theorem resolveDevice_lookup_iff (dpath : String) (objs : List BleObject)
    (hU : UuidsNodup objs) (chars : List (String × String))
    (hj : ∀ e ∈ chars, resolvesTo dpath e.1 e.2 objs) (u c : String) :
    lookupKey u (resolveDevice dpath chars objs) = some c ↔
      resolvesTo dpath u c objs := by
  constructor
  · intro h
    exact resolveDevice_justified dpath objs chars hj (u, c)
      (lookupKey_some_mem u c _ h)
  · intro hr
    obtain ⟨spath, hs, hc⟩ := hr
    obtain ⟨v, hv⟩ := Option.isSome_iff_exists.mp
      (resolveDevice_complete dpath objs spath c u hs hc chars)
    have hrv : resolvesTo dpath u v objs :=
      resolveDevice_justified dpath objs chars hj (u, v) (lookupKey_some_mem u v _ hv)
    have hvc : v = c := resolvesTo_unique objs hU dpath u v c hrv ⟨spath, hs, hc⟩
    rw [hv, hvc]

theorem processObjectAdded_objects (st : ManagerState) (o : BleObject) :
    (processObjectAdded st o).objects = st.objects ++ [o] := by
  cases o <;> rfl

theorem foldl_manager_objects :
    ∀ (l : List BleObject) (st : ManagerState),
      (l.foldl processObjectAdded st).objects = st.objects ++ l := by
  intro l
  induction l with
  | nil => intro st; simp
  | cons o rest ih =>
    intro st
    show (rest.foldl processObjectAdded (processObjectAdded st o)).objects = _
    rw [ih, processObjectAdded_objects]
    simp

/-- The manager's object set after a run is the delivered sequence. -/
theorem runManager_objects (objs : List BleObject) :
    (runManager objs).objects = objs := by
  show (objs.foldl processObjectAdded ⟨[], []⟩).objects = objs
  rw [foldl_manager_objects]
  rfl

theorem processObjectAdded_devicePaths (st : ManagerState) (o : BleObject) :
    (processObjectAdded st o).devices.map DeviceState.objpath =
      st.devices.map DeviceState.objpath ++ (devicePathOf o).toList := by
  cases o with
  | adapter q => simp [processObjectAdded, devicePathOf]
  | device q => simp [processObjectAdded, devicePathOf]
  | service q d => simp [processObjectAdded, devicePathOf]
  | characteristic q s v =>
    simp [processObjectAdded, devicePathOf, List.map_map, Function.comp]

theorem foldl_manager_devicePaths :
    ∀ (l : List BleObject) (st : ManagerState),
      (l.foldl processObjectAdded st).devices.map DeviceState.objpath =
        st.devices.map DeviceState.objpath ++ l.filterMap devicePathOf := by
  intro l
  induction l with
  | nil => intro st; simp
  | cons o rest ih =>
    intro st
    show (rest.foldl processObjectAdded (processObjectAdded st o)).devices.map _ = _
    rw [ih, processObjectAdded_devicePaths, List.filterMap_cons]
    cases ho : devicePathOf o with
    | none => simp
    | some q => simp

/-- The devices known after a run are exactly the delivered device
objects, in delivery order. -/
theorem runManager_devicePaths (objs : List BleObject) :
    (runManager objs).devices.map DeviceState.objpath =
      objs.filterMap devicePathOf := by
  show (objs.foldl processObjectAdded ⟨[], []⟩).devices.map _ = _
  rw [foldl_manager_devicePaths]
  rfl

/-- Run invariant: every binding of every known device's characteristic
map is justified by the current object set. -/
def DevicesJustified (st : ManagerState) : Prop :=
  ∀ d ∈ st.devices, ∀ e ∈ d.characteristics, resolvesTo d.objpath e.1 e.2 st.objects

theorem resolvesTo_extends {p u c : String} {objs objs' : List BleObject}
    (h : ExtendsTo objs objs') (hr : resolvesTo p u c objs) :
    resolvesTo p u c objs' := by
  obtain ⟨t, rfl⟩ := h
  obtain ⟨s, hs, hc⟩ := hr
  exact ⟨s, List.mem_append_left t hs, List.mem_append_left t hc⟩

theorem processObjectAdded_justified (st : ManagerState) (o : BleObject)
    (h : DevicesJustified st) : DevicesJustified (processObjectAdded st o) := by
  cases o with
  | adapter q =>
    intro d hd e he
    exact resolvesTo_extends ⟨[BleObject.adapter q], rfl⟩ (h d hd e he)
  | service q dq =>
    intro d hd e he
    exact resolvesTo_extends ⟨[BleObject.service q dq], rfl⟩ (h d hd e he)
  | device dpath =>
    intro d hd e he
    simp only [processObjectAdded] at hd
    rcases List.mem_append.mp hd with h1 | h2
    · exact resolvesTo_extends ⟨[BleObject.device dpath], rfl⟩ (h d h1 e he)
    · have hd2 : d = { objpath := dpath, characteristics :=
          resolveDevice dpath [] (st.objects ++ [BleObject.device dpath]) } := by
        simpa using h2
      subst hd2
      exact resolveDevice_justified dpath _ [] (by simp) e he
  | characteristic cq sq uq =>
    intro d hd e he
    simp only [processObjectAdded] at hd
    obtain ⟨d₀, hd₀, rfl⟩ := List.mem_map.mp hd
    exact resolveDevice_justified d₀.objpath _ d₀.characteristics
      (fun e' he' => resolvesTo_extends ⟨[BleObject.characteristic cq sq uq], rfl⟩
        (h d₀ hd₀ e' he')) e he

theorem runManager_justified (objs : List BleObject) :
    DevicesJustified (runManager objs) := by
  refine foldl_preserves DevicesJustified processObjectAdded
    (fun st o hp => processObjectAdded_justified st o hp) objs ⟨[], []⟩ ?_
  intro d hd
  simp at hd

/-- After a run whose last delivered object is a characteristic, every
device's map binds a uuid to a path exactly when the uuid resolves to
that path in the complete set: the final object-added pass re-resolved
every device against the full object set. -/
theorem runManager_ends_char_lookup (objs : List BleObject)
    (hend : EndsWithCharacteristic objs) (hU : UuidsNodup objs) :
    ∀ d ∈ (runManager objs).devices, ∀ u c : String,
      (lookupKey u d.characteristics = some c ↔ resolvesTo d.objpath u c objs) := by
  obtain ⟨l, cpath, spath, uu, rfl⟩ := hend
  have hrun : runManager (l ++ [BleObject.characteristic cpath spath uu]) =
      processObjectAdded (runManager l) (BleObject.characteristic cpath spath uu) := by
    show (l ++ [_]).foldl processObjectAdded ⟨[], []⟩ = _
    rw [List.foldl_append]
    rfl
  rw [hrun]
  intro d hd u c
  simp only [processObjectAdded] at hd
  obtain ⟨d₀, hd₀, rfl⟩ := List.mem_map.mp hd
  have hj : ∀ e ∈ d₀.characteristics, resolvesTo d₀.objpath e.1 e.2
      (l ++ [BleObject.characteristic cpath spath uu]) := by
    intro e he
    have hjl := runManager_justified l d₀ hd₀ e he
    rw [runManager_objects] at hjl
    exact resolvesTo_extends ⟨[BleObject.characteristic cpath spath uu], rfl⟩ hjl
  have hobj : (runManager l).objects ++ [BleObject.characteristic cpath spath uu] =
      l ++ [BleObject.characteristic cpath spath uu] := by
    rw [runManager_objects]
  show lookupKey u (resolveDevice d₀.objpath d₀.characteristics
      ((runManager l).objects ++ [BleObject.characteristic cpath spath uu])) = some c ↔
    resolvesTo d₀.objpath u c (l ++ [BleObject.characteristic cpath spath uu])
  rw [hobj]
  exact resolveDevice_lookup_iff d₀.objpath _ hU d₀.characteristics hj u c

/-- Resolvability only depends on the object set as a set. -/
theorem resolvesTo_perm {objs objs' : List BleObject} (h : objs.Perm objs')
    (p u c : String) : resolvesTo p u c objs ↔ resolvesTo p u c objs' :=
  exists_congr fun _ => and_congr h.mem_iff h.mem_iff

theorem devicePath_mem (objs : List BleObject) (q : String) :
    q ∈ objs.filterMap devicePathOf ↔ BleObject.device q ∈ objs := by
  rw [List.mem_filterMap]
  constructor
  · rintro ⟨o, ho, hq⟩
    cases o with
    | device r =>
      have hr : r = q := by simpa [devicePathOf] using hq
      exact hr ▸ ho
    | adapter r => simp [devicePathOf] at hq
    | service r s => simp [devicePathOf] at hq
    | characteristic r s v => simp [devicePathOf] at hq
  · intro h
    exact ⟨BleObject.device q, h, rfl⟩

theorem findDevice_none_iff (q : String) (objs : List BleObject) :
    findDevice q (runManager objs) = none ↔ BleObject.device q ∉ objs := by
  rw [findDevice, List.find?_eq_none]
  constructor
  · intro h hmem
    have h1 : q ∈ (runManager objs).devices.map DeviceState.objpath := by
      rw [runManager_devicePaths]
      exact (devicePath_mem objs q).mpr hmem
    obtain ⟨d, hd, hdq⟩ := List.mem_map.mp h1
    exact h d hd (by simp [hdq])
  · intro h d hd hbeq
    have hdq : d.objpath = q := by simpa using hbeq
    apply h
    rw [← devicePath_mem objs q, ← runManager_devicePaths]
    exact List.mem_map.mpr ⟨d, hd, hdq⟩

/-- C3 (amended): delivering the same object set in two different orders
that both end with a characteristic yields the same final
device-to-characteristic mapping, provided characteristic uuids are
pairwise distinct — the final object-added pass re-resolves every device
against the complete set, so a characteristic announced before its
service, or a service announced before its device, is resolved by then.
(Full order independence fails: a service delivered last triggers no
pass, see the counterexample.) -/
theorem c3_order_independence_amended (objs objs' : List BleObject)
    (hperm : objs.Perm objs') (hU : UuidsNodup objs)
    (hend : EndsWithCharacteristic objs) (hend' : EndsWithCharacteristic objs')
    (p u : String) :
    charLookup p u (runManager objs) = charLookup p u (runManager objs') := by
  have hU' : UuidsNodup objs' := ((hperm.filterMap uuidOf).nodup_iff).mp hU
  have hiff := runManager_ends_char_lookup objs hend hU
  have hiff' := runManager_ends_char_lookup objs' hend' hU'
  cases hfd : findDevice p (runManager objs) with
  | none =>
    have hnot : BleObject.device p ∉ objs := (findDevice_none_iff p objs).mp hfd
    have hnot' : BleObject.device p ∉ objs' := fun hmem => hnot (hperm.mem_iff.mpr hmem)
    have hfd' : findDevice p (runManager objs') = none :=
      (findDevice_none_iff p objs').mpr hnot'
    simp [charLookup, hfd, hfd']
  | some d =>
    have hd : d ∈ (runManager objs).devices := List.mem_of_find?_eq_some hfd
    have hdp : d.objpath = p := by simpa using List.find?_some hfd
    have hmem : BleObject.device p ∈ objs := by
      rw [← devicePath_mem objs p, ← runManager_devicePaths]
      exact List.mem_map.mpr ⟨d, hd, hdp⟩
    have hmem' : BleObject.device p ∈ objs' := hperm.mem_iff.mp hmem
    have hsome' : findDevice p (runManager objs') ≠ none := by
      intro hn
      exact ((findDevice_none_iff p objs').mp hn) hmem'
    obtain ⟨d', hfd'⟩ := Option.ne_none_iff_exists'.mp hsome'
    have hd' : d' ∈ (runManager objs').devices := List.mem_of_find?_eq_some hfd'
    have hdp' : d'.objpath = p := by simpa using List.find?_some hfd'
    simp only [charLookup, hfd, hfd', Option.map_some', Option.some.injEq]
    cases h1 : lookupKey u d.characteristics with
    | some c =>
      have hr : resolvesTo d.objpath u c objs := (hiff d hd u c).mp h1
      rw [hdp] at hr
      have hr' : resolvesTo d'.objpath u c objs' := by
        rw [hdp']
        exact (resolvesTo_perm hperm p u c).mp hr
      exact ((hiff' d' hd' u c).mpr hr').symm
    | none =>
      cases h2 : lookupKey u d'.characteristics with
      | some c =>
        have hr' : resolvesTo d'.objpath u c objs' := (hiff' d' hd' u c).mp h2
        rw [hdp'] at hr'
        have hr : resolvesTo d.objpath u c objs := by
          rw [hdp]
          exact (resolvesTo_perm hperm p u c).mpr hr'
        have hcontra := (hiff d hd u c).mpr hr
        rw [h1] at hcontra
        exact absurd hcontra (by simp)
      | none => rfl

/-- Witness for C3 (amended): the service-before-device and
device-before-service deliveries of the same set, each ending with the
characteristic, agree on the final mapping. -/
theorem c3_order_independence_amended_witness :
    charLookup "d" "u" (runManager [BleObject.device "d", BleObject.service "s" "d",
      BleObject.characteristic "c" "s" "u"]) =
    charLookup "d" "u" (runManager [BleObject.service "s" "d", BleObject.device "d",
      BleObject.characteristic "c" "s" "u"]) :=
  c3_order_independence_amended _ _
    (List.Perm.swap (BleObject.service "s" "d") (BleObject.device "d")
      [BleObject.characteristic "c" "s" "u"])
    (by show (["u"] : List String).Nodup; simp)
    ⟨[BleObject.device "d", BleObject.service "s" "d"], "c", "s", "u", rfl⟩
    ⟨[BleObject.service "s" "d", BleObject.device "d"], "c", "s", "u", rfl⟩
    "d" "u"

end Tuhi
